import Mathlib

/-!
# Verification of the data-cleaning and statistical-inference pipeline

Shallow embedding of the core engines of the dashboard application
(`src/app.py`): outlier detection (IQR and Z-score), missing-value
imputation, categorical encoding, correlation tests, model training
validation, manual prediction, and type inference.

Python floats are modelled by `ℚ` (exact arithmetic on finite values;
`NaN`/missing is `Option.none`, infinities appear only in the
statistical-test value domain where the source explicitly filters them).
Pandas dataframes are modelled as lists of named columns; row indices are
list positions.
-/

namespace Dashboard

/-! ## Outlier engine (`handle_data_cleaning`, outlier detection branch)

A numeric column is a list of optional rationals; `none` is a missing
value (`NaN`). -/

/-- `Series.dropna`: the non-null values of a numeric column, in row order. -/
def nonNull (col : List (Option ℚ)) : List ℚ := col.filterMap id

/-- Ascending sort of the values (pandas quantile interpolates over the
sorted data). -/
def sortQ (l : List ℚ) : List ℚ := l.insertionSort (· ≤ ·)

/-- Linear-interpolation quantile over an already-sorted list `s`:
pandas `Series.quantile(q)` with the default `interpolation='linear'`.
With `n = s.length`, the virtual position is `pos = q*(n-1)`; the result
interpolates between the floor neighbour and the next entry. -/
def quantileSorted (s : List ℚ) (q : ℚ) : ℚ :=
  s.getD ⌊q * ((s.length : ℚ) - 1)⌋₊ 0 +
    (s.getD (min (⌊q * ((s.length : ℚ) - 1)⌋₊ + 1) (s.length - 1)) 0 -
     s.getD ⌊q * ((s.length : ℚ) - 1)⌋₊ 0) *
      (q * ((s.length : ℚ) - 1) - (⌊q * ((s.length : ℚ) - 1)⌋₊ : ℚ))

/-- `Series.quantile(q)` of a column's non-null values. -/
def seriesQuantile (vals : List ℚ) (q : ℚ) : ℚ := quantileSorted (sortQ vals) q

/-- IQR outlier detection for one numeric column (`app.py` lines
3788-3797): `q1 = col.quantile(.25)`, `q3 = col.quantile(.75)`,
bounds `[q1 - k*iqr, q3 + k*iqr]`; a row index is flagged iff its value
is strictly outside the bounds.  `NaN` rows never satisfy either strict
comparison in pandas, so `none` cells are never flagged.  Columns with
at most one non-null value are skipped (lines 3785-3786). -/
def detectIQR (col : List (Option ℚ)) (k : ℚ) : List ℕ :=
  let vals := sortQ (nonNull col)
  if vals.length ≤ 1 then []
  else
    let q1 := quantileSorted vals (1/4)
    let q3 := quantileSorted vals (3/4)
    let iqr := q3 - q1
    let lo := q1 - k * iqr
    let hi := q3 + k * iqr
    (List.range col.length).filter fun i =>
      match col.getD i none with
      | some v => decide (v < lo) || decide (hi < v)
      | none => false

/-- Mean of a list of rationals (`Series.mean` over non-null values;
only used under guards that ensure the list is non-empty). -/
def meanQ (l : List ℚ) : ℚ := l.sum / l.length

/-- Sample variance (`Series.std()` squared, `ddof = 1`); the source's
`std == 0` test is equivalent to `sampleVar = 0` since `std = √var`. -/
def sampleVar (l : List ℚ) : ℚ :=
  (l.map fun v => (v - meanQ l) ^ 2).sum / ((l.length : ℚ) - 1)

/-- Z-score outlier detection for one numeric column (`app.py` lines
3799-3813).  The source flags rows with `|v - mean| / std > k` and
short-circuits to no flags when `std == 0`; here the comparison is
encoded squared (`(v - mean)² > k²·var`, equivalent for `k ≥ 0` and
`std > 0`) so that the embedding stays within `ℚ`. -/
def detectZscore (col : List (Option ℚ)) (k : ℚ) : List ℕ :=
  let vals := nonNull col
  if vals.length ≤ 1 then []
  else if sampleVar vals = 0 then []
  else
    (List.range col.length).filter fun i =>
      match col.getD i none with
      | some v => decide (k ^ 2 * sampleVar vals < (v - meanQ vals) ^ 2)
      | none => false

theorem length_sortQ (l : List ℚ) : (sortQ l).length = l.length :=
  (List.perm_insertionSort _ l).length_eq

theorem mem_sortQ {l : List ℚ} {x : ℚ} : x ∈ sortQ l ↔ x ∈ l :=
  (List.perm_insertionSort _ l).mem_iff

theorem meanQ_all_eq {l : List ℚ} {a : ℚ} (hne : l ≠ [])
    (h : ∀ v ∈ l, v = a) : meanQ l = a := by
  have hl : l = List.replicate l.length a := List.eq_replicate_of_mem h
  rw [meanQ, hl]
  rw [List.sum_replicate, List.length_replicate, nsmul_eq_mul]
  have hp : 0 < l.length := List.length_pos.mpr hne
  have hn : (l.length : ℚ) ≠ 0 := Nat.cast_ne_zero.mpr (by omega)
  field_simp

theorem quantileSorted_all_eq {s : List ℚ} {a : ℚ} {q : ℚ}
    (hne : s ≠ []) (hq0 : 0 ≤ q) (hq1 : q ≤ 1)
    (h : ∀ v ∈ s, v = a) : quantileSorted s q = a := by
  have hlen : 1 ≤ s.length := List.length_pos.mpr hne
  have hgetD : ∀ m : ℕ, m < s.length → s.getD m 0 = a := by
    intro m hm
    rw [List.getD_eq_getElem s 0 hm]
    exact h _ (s.getElem_mem hm)
  have hpos0 : (0 : ℚ) ≤ q * ((s.length : ℚ) - 1) := by
    have : (1 : ℚ) ≤ (s.length : ℚ) := by exact_mod_cast hlen
    have h1 : (0 : ℚ) ≤ (s.length : ℚ) - 1 := by linarith
    exact mul_nonneg hq0 h1
  have hil : ⌊q * ((s.length : ℚ) - 1)⌋₊ < s.length := by
    have hle : q * ((s.length : ℚ) - 1) ≤ (s.length : ℚ) - 1 := by
      have h1 : (0 : ℚ) ≤ (s.length : ℚ) - 1 := by
        have : (1 : ℚ) ≤ (s.length : ℚ) := by exact_mod_cast hlen
        linarith
      nlinarith
    have := Nat.floor_le_floor (α := ℚ) hle
    have hfl : ⌊(s.length : ℚ) - 1⌋₊ = s.length - 1 := by
      have : ((s.length : ℚ) - 1) = ((s.length - 1 : ℕ) : ℚ) := by
        push_cast [Nat.cast_sub hlen]
        ring
      rw [this, Nat.floor_natCast]
    omega
  have hjl : min (⌊q * ((s.length : ℚ) - 1)⌋₊ + 1) (s.length - 1) < s.length := by
    omega
  rw [quantileSorted, hgetD _ hil, hgetD _ hjl]
  ring

/-- **C1.** For every numeric column with at least 2 non-null values and
every factor `k`, IQR detection flags exactly the row indices holding a
non-null value strictly outside `[Q1 - k*IQR, Q3 + k*IQR]` (so `none`
cells are never flagged); when all non-null values are equal the flag
list is empty; and on values `[1,2,3,4,100]` with `k = 3/2` the bounds
are `[-1, 7]` and exactly the row holding `100` (index 4) is flagged. -/
theorem iqr_detection_correct (col : List (Option ℚ)) (k : ℚ)
    (h2 : 2 ≤ (nonNull col).length) :
    (∀ i, i ∈ detectIQR col k ↔
      ∃ v, col.getD i none = some v ∧ i < col.length ∧
        (v < seriesQuantile (nonNull col) (1/4) -
              k * (seriesQuantile (nonNull col) (3/4) -
                   seriesQuantile (nonNull col) (1/4)) ∨
         seriesQuantile (nonNull col) (3/4) +
              k * (seriesQuantile (nonNull col) (3/4) -
                   seriesQuantile (nonNull col) (1/4)) < v)) ∧
    (∀ a, (∀ v ∈ nonNull col, v = a) → detectIQR col k = []) ∧
    (detectIQR [some 1, some 2, some 3, some 4, some 100] (3/2) = [4] ∧
     seriesQuantile (nonNull [some 1, some 2, some 3, some 4, some 100]) (1/4) -
       (3/2) * (seriesQuantile (nonNull [some 1, some 2, some 3, some 4, some 100]) (3/4) -
                seriesQuantile (nonNull [some 1, some 2, some 3, some 4, some 100]) (1/4)) = -1 ∧
     seriesQuantile (nonNull [some 1, some 2, some 3, some 4, some 100]) (3/4) +
       (3/2) * (seriesQuantile (nonNull [some 1, some 2, some 3, some 4, some 100]) (3/4) -
                seriesQuantile (nonNull [some 1, some 2, some 3, some 4, some 100]) (1/4)) = 7) := by
  have hguard : ¬ (sortQ (nonNull col)).length ≤ 1 := by
    rw [length_sortQ]; omega
  refine ⟨?_, ?_, ?_, ?_, ?_⟩
  · intro i
    rw [detectIQR]
    simp only [hguard, if_false]
    rw [List.mem_filter, List.mem_range]
    constructor
    · rintro ⟨hi, hp⟩
      rcases hv : col.getD i none with _ | v
      · rw [hv] at hp; simp at hp
      · rw [hv] at hp
        simp only [Bool.or_eq_true, decide_eq_true_eq] at hp
        exact ⟨v, rfl, hi, hp⟩
    · rintro ⟨v, hv, hi, hp⟩
      refine ⟨hi, ?_⟩
      rw [hv]
      simpa only [Bool.or_eq_true, decide_eq_true_eq] using hp
  · intro a ha
    rw [detectIQR]
    simp only [hguard, if_false]
    rw [List.filter_eq_nil_iff]
    intro i _
    rcases hv : col.getD i none with _ | v
    · simp
    · have hvmem : v ∈ nonNull col := by
        have hi : i < col.length := by
          by_contra hlt
          rw [List.getD_eq_default] at hv
          · exact Option.noConfusion hv
          · omega
        have : some v ∈ col := by
          rw [List.getD_eq_getElem col none hi] at hv
          rw [← hv]
          exact col.getElem_mem hi
        exact List.mem_filterMap.mpr ⟨some v, this, rfl⟩
      have hva : v = a := ha v hvmem
      have hsa : ∀ w ∈ sortQ (nonNull col), w = a := fun w hw =>
        ha w (mem_sortQ.mp hw)
      have hsne : sortQ (nonNull col) ≠ [] := by
        intro hnil
        have := length_sortQ (nonNull col)
        rw [hnil] at this
        simp at this
        omega
      have hq1 : quantileSorted (sortQ (nonNull col)) (1/4) = a :=
        quantileSorted_all_eq hsne (by norm_num) (by norm_num) hsa
      have hq3 : quantileSorted (sortQ (nonNull col)) (3/4) = a :=
        quantileSorted_all_eq hsne (by norm_num) (by norm_num) hsa
      rw [hq1, hq3, hva]
      simp
  · norm_num [detectIQR, quantileSorted, nonNull, sortQ, seriesQuantile,
      List.insertionSort, List.orderedInsert, List.filter]
  · norm_num [seriesQuantile, quantileSorted, nonNull, sortQ,
      List.insertionSort, List.orderedInsert]
  · norm_num [seriesQuantile, quantileSorted, nonNull, sortQ,
      List.insertionSort, List.orderedInsert]

/-- Witness for C1 at the hand-picked column `[1,2,3,4,100]`, `k = 3/2`. -/
theorem iqr_detection_correct_witness :
    2 ≤ (nonNull [some 1, some 2, some 3, some 4, some 100]).length ∧
    detectIQR [some 1, some 2, some 3, some 4, some 100] (3/2) = [4] :=
  ⟨by decide,
   (iqr_detection_correct [some 1, some 2, some 3, some 4, some 100] (3/2)
     (by decide)).2.2.1⟩

theorem sampleVar_all_eq {l : List ℚ} {a : ℚ} (h : ∀ v ∈ l, v = a) :
    sampleVar l = 0 := by
  rcases eq_or_ne l [] with hnil | hne
  · subst hnil; simp [sampleVar]
  · have hm : meanQ l = a := meanQ_all_eq hne h
    have hz : (l.map fun v => (v - meanQ l) ^ 2) =
        List.replicate (l.map fun v => (v - meanQ l) ^ 2).length 0 := by
      apply List.eq_replicate_of_mem
      intro x hx
      rcases List.mem_map.mp hx with ⟨v, hv, hvx⟩
      rw [← hvx, hm, h v hv, sub_self]
      ring
    rw [sampleVar, hz, List.sum_replicate]
    simp

/-- **C4.** For every numeric column whose non-null values are all equal
and every threshold `k`, Z-score detection flags no rows; the sample
variance of such a column is exactly 0, so the guarded branch that would
divide by the standard deviation is never taken. -/
theorem zscore_all_equal_flags_nothing (col : List (Option ℚ)) (k : ℚ) (a : ℚ)
    (h : ∀ v ∈ nonNull col, v = a) :
    sampleVar (nonNull col) = 0 ∧ detectZscore col k = [] := by
  have hv : sampleVar (nonNull col) = 0 := sampleVar_all_eq h
  refine ⟨hv, ?_⟩
  rw [detectZscore]
  rcases le_or_lt (nonNull col).length 1 with hle | hgt
  · simp [hle]
  · have : ¬ (nonNull col).length ≤ 1 := by omega
    simp [this, hv]

/-- Witness for C4 on the all-equal column `[5, 5, NaN, 5]` with the
default threshold `k = 3`. -/
theorem zscore_all_equal_flags_nothing_witness :
    (∀ v ∈ nonNull [some 5, some 5, none, some 5], v = 5) ∧
    detectZscore [some 5, some 5, none, some 5] 3 = [] :=
  ⟨by intro v hv; simpa [nonNull] using hv,
   (zscore_all_equal_flags_nothing [some 5, some 5, none, some 5] 3 5
     (by intro v hv; simpa [nonNull] using hv)).2⟩

/-! ## Imputation engine (`handle_data_cleaning`, imputation branch,
`app.py` lines 3896-3921)

Cells hold either a finite float (`ℚ`) or a string; `none` is `NaN`.
A column carries its pandas dtype flag (`is_numeric_dtype`). -/

/-- A scalar cell value: a finite float or a string. -/
abbrev Val := ℚ ⊕ String

/-- A dataframe cell; `none` is a missing value (`NaN`). -/
abbrev Cell := Option Val

/-- A dataframe column with its pandas numeric-dtype flag. -/
structure Col where
  numeric : Bool
  cells : List Cell

/-- The four imputation methods offered by the cleaning page. -/
inductive ImpMethod
  | mean
  | median
  | mode
  | knn
  deriving DecidableEq

/-- Python 3 `round(x, 3)` and numpy/pandas `.round(3)`: round to three
decimal places with ties going to the even neighbour. -/
def round3 (q : ℚ) : ℚ :=
  ((if q * 1000 - ⌊q * 1000⌋ < 1/2 then ⌊q * 1000⌋
    else if 1/2 < q * 1000 - ⌊q * 1000⌋ then ⌊q * 1000⌋ + 1
    else if ⌊q * 1000⌋ % 2 = 0 then ⌊q * 1000⌋ else ⌊q * 1000⌋ + 1 : ℤ) : ℚ) / 1000

/-- The numeric content of a value, if any. -/
def toNum : Val → Option ℚ
  | .inl q => some q
  | .inr _ => none

/-- The non-null numeric values of a column's cells. -/
def colNums (cells : List Cell) : List ℚ := cells.filterMap fun c => c.bind toNum

/-- `Series.median()`: middle of the sorted values, or the average of the
two middles for even length (only used under a non-empty guard). -/
def medianQ (l : List ℚ) : ℚ :=
  if l.length % 2 = 1 then (sortQ l).getD (l.length / 2) 0
  else ((sortQ l).getD (l.length / 2 - 1) 0 + (sortQ l).getD (l.length / 2) 0) / 2

/-- `Series.fillna(v)`: replace every missing cell by `v` (filling with
`NaN`, i.e. `v = none`, leaves the column unchanged, as in pandas). -/
def fillCells (cells : List Cell) (v : Cell) : List Cell :=
  cells.map fun c => match c with
    | none => v
    | some x => some x

/-- `round(df[col].mean(), 3)` as a fill value: `NaN` (`none`) when the
column has no non-null numeric values, else the rounded mean. -/
def meanFillVal (cells : List Cell) : Cell :=
  if colNums cells = [] then none
  else some (.inl (round3 (meanQ (colNums cells))))

/-- `round(df[col].median(), 3)` as a fill value. -/
def medianFillVal (cells : List Cell) : Cell :=
  if colNums cells = [] then none
  else some (.inl (round3 (medianQ (colNums cells))))

/-- `KNNImputer(n_neighbors=5).fit_transform(df[[col]])` followed by
`.round(3)` (`app.py` lines 3909-3916).  Fitting on a single column,
observed entries pass through the imputer unchanged and a row missing
its only feature has no usable neighbour distances, so sklearn falls
back to the column mean.  The source then rounds the **entire**
transformed column to 3 decimals, so observed entries are rounded too. -/
def knnTransform (cells : List Cell) : List Cell :=
  cells.map fun c => match c with
    | some (.inl q) => some (.inl (round3 q))
    | some (.inr s) => some (.inr s)
    | none =>
        if colNums cells = [] then none
        else some (.inl (round3 (meanQ (colNums cells))))

/-- Ascending order on cell values used to model pandas' sorted
`Series.mode()` output (numbers before strings; mixed-type columns do
not occur in practice). -/
def leVal : Val → Val → Prop
  | .inl p, .inl q => p ≤ q
  | .inl _, .inr _ => True
  | .inr _, .inl _ => False
  | .inr s, .inr t => s ≤ t

instance : DecidableRel leVal
  | .inl p, .inl q => inferInstanceAs (Decidable (p ≤ q))
  | .inl _, .inr _ => .isTrue trivial
  | .inr _, .inl _ => .isFalse fun h => h
  | .inr s, .inr t => inferInstanceAs (Decidable (s ≤ t))

/-- Ascending sort of values. -/
def sortVals (l : List Val) : List Val := l.insertionSort leVal

/-- `df[col].mode()[0]` if the mode series is non-empty, else `NaN`:
pandas returns the modal values sorted ascending, so the fill value is
the smallest value of maximal multiplicity; `none` when the column has
no non-null values. -/
def modeCell (cells : List Cell) : Cell :=
  (sortVals (cells.filterMap id).dedup).argmax fun v => (cells.filterMap id).count v

/-- One column of the imputation loop (`app.py` lines 3901-3919): only
columns with at least one missing value are touched; numeric-dtype
columns dispatch on `mean`/`median`/`knn` (no branch exists for `mode`,
which therefore leaves a numeric column unchanged); non-numeric columns
only have a `mode` branch. -/
def imputeColumn (c : Col) (m : ImpMethod) : Col :=
  if c.cells.any Option.isNone then
    if c.numeric then
      match m with
      | .mean => ⟨c.numeric, fillCells c.cells (meanFillVal c.cells)⟩
      | .median => ⟨c.numeric, fillCells c.cells (medianFillVal c.cells)⟩
      | .knn => ⟨c.numeric, knnTransform c.cells⟩
      | .mode => c
    else
      match m with
      | .mode => ⟨c.numeric, fillCells c.cells (modeCell c.cells)⟩
      | _ => c
  else c

/-- The imputation engine over a dataframe: every selected column is
imputed, the rest are untouched. -/
def impute (df : List (String × Col)) (selected : List String) (m : ImpMethod) :
    List (String × Col) :=
  df.map fun p => if p.1 ∈ selected then (p.1, imputeColumn p.2 m) else p

/-- What a knn pass does to an observed value: numeric entries are
rounded to three decimals, strings pass through. -/
def knnRound : Val → Val
  | .inl q => .inl (round3 q)
  | .inr s => .inr s

theorem fillCells_none (cells : List Cell) : fillCells cells none = cells := by
  induction cells with
  | nil => rfl
  | cons c rest ih =>
      cases c <;> simp [fillCells] at ih ⊢ <;> exact ih

theorem fillCells_get?_some {cells : List Cell} {i : ℕ} {x : Val} (v : Cell)
    (h : cells.get? i = some (some x)) :
    (fillCells cells v).get? i = some (some x) := by
  rw [fillCells, List.get?_map, h]
  rfl

theorem fillCells_no_missing (cells : List Cell) (v : Val) :
    (fillCells cells (some v)).any Option.isNone = false := by
  rw [fillCells, List.any_map]
  simp only [List.any_eq_false, Function.comp]
  intro c _
  cases c <;> simp

theorem imputeColumn_frame (c : Col) (m : ImpMethod) (i : ℕ) (x : Val)
    (h : c.cells.get? i = some (some x)) :
    (¬(m = .knn ∧ c.numeric = true ∧ c.cells.any Option.isNone = true) →
      (imputeColumn c m).cells.get? i = some (some x)) ∧
    ((m = .knn ∧ c.numeric = true ∧ c.cells.any Option.isNone = true) →
      (imputeColumn c m).cells.get? i = some (some (knnRound x))) := by
  constructor
  · intro hnot
    by_cases hany : c.cells.any Option.isNone = true
    · by_cases hnum : c.numeric = true
      · have hm : m ≠ .knn := fun hk => hnot ⟨hk, hnum, hany⟩
        rw [imputeColumn.eq_def, hany, hnum]
        cases m with
        | mean => simpa using fillCells_get?_some _ h
        | median => simpa using fillCells_get?_some _ h
        | mode => simpa using h
        | knn => exact absurd rfl hm
      · have hnum' : c.numeric = false := by
          revert hnum; cases c.numeric <;> simp
        rw [imputeColumn.eq_def, hany, hnum']
        cases m with
        | mean => simpa using h
        | median => simpa using h
        | mode => simpa using fillCells_get?_some _ h
        | knn => simpa using h
    · have hany' : c.cells.any Option.isNone = false := by
        revert hany; cases c.cells.any Option.isNone <;> simp
      rw [imputeColumn.eq_def, hany']
      simpa using h
  · rintro ⟨hm, hnum, hany⟩
    subst hm
    rw [imputeColumn.eq_def, hany, hnum]
    simp only [if_true]
    rw [knnTransform, List.get?_map, h]
    cases x <;> rfl

theorem imputeColumn_mean_idem (c : Col) :
    imputeColumn (imputeColumn c .mean) .mean = imputeColumn c .mean := by
  by_cases hany : c.cells.any Option.isNone = true
  · by_cases hnum : c.numeric = true
    · have hc : imputeColumn c .mean =
          ⟨c.numeric, fillCells c.cells (meanFillVal c.cells)⟩ := by
        rw [imputeColumn.eq_def, hany, hnum]
        rfl
      rcases hfv : meanFillVal c.cells with _ | v
      · have hcc : imputeColumn c .mean = c := by
          rw [hc, hfv, fillCells_none]
        rw [hcc]; exact hcc
      · have key : (fillCells c.cells (some v)).any Option.isNone = false :=
          fillCells_no_missing _ _
        rw [hc, hfv, imputeColumn.eq_def]
        simp only [key, Bool.false_eq_true, if_false]
    · have hnum' : c.numeric = false := by
        revert hnum; cases c.numeric <;> simp
      have hcc : imputeColumn c .mean = c := by
        rw [imputeColumn.eq_def, hany, hnum']
        rfl
      rw [hcc]; exact hcc
  · have hany' : c.cells.any Option.isNone = false := by
      revert hany; cases c.cells.any Option.isNone <;> simp
    have hcc : imputeColumn c .mean = c := by
      rw [imputeColumn.eq_def, hany']
      rfl
    rw [hcc]; exact hcc

theorem impute_mean_idem (df : List (String × Col)) (sel : List String) :
    impute (impute df sel .mean) sel .mean = impute df sel .mean := by
  simp only [impute, List.map_map]
  apply List.map_congr_left
  intro p _
  by_cases hp : p.1 ∈ sel
  · simp only [Function.comp, hp, if_true, imputeColumn_mean_idem]
  · simp only [Function.comp, hp, if_false]

/-- **C2 (counterexample).** As stated, the claim fails for `knn`
imputation: on the numeric column `[0.0001, NaN]` the present cell
`0.0001` is rounded to `0` by the whole-column `.round(3)`, so a
non-null cell does not keep its value. -/
theorem imputation_overwrites_present_cell_knn :
    (impute [("c", ⟨true, [some (.inl (1/10000)), none]⟩)] ["c"] .knn).get? 0 ≠
      some ("c", ⟨true, [some (.inl (1/10000)), none]⟩) ∧
    (impute [("c", ⟨true, [some (.inl (1/10000)), none]⟩)] ["c"] .knn) =
      [("c", ⟨true, [some (.inl 0), some (.inl 0)]⟩)] := by
  have h1 : colNums [some (.inl (1/10000)), none] = [1/10000] := rfl
  have h2 : meanQ [(1/10000 : ℚ)] = 1/10000 := by
    norm_num [meanQ, List.sum_cons, List.sum_nil]
  have h3 : round3 (1/10000) = 0 := by
    rw [round3]; norm_num
  have h4 : knnTransform [some (.inl (1/10000)), none] =
      [some (.inl (round3 (1/10000))),
       some (.inl (round3 (meanQ (colNums [some (.inl (1/10000)), none]))))] := rfl
  have hev : (impute [("c", ⟨true, [some (.inl (1/10000)), none]⟩)] ["c"] .knn) =
      [("c", ⟨true, [some (.inl 0), some (.inl 0)]⟩)] := by
    have hcol : imputeColumn ⟨true, [some (.inl (1/10000)), none]⟩ .knn =
        ⟨true, [some (.inl 0), some (.inl 0)]⟩ := by
      have : imputeColumn ⟨true, [some (.inl (1/10000)), none]⟩ .knn =
          ⟨true, knnTransform [some (.inl (1/10000)), none]⟩ := rfl
      rw [this, h4, h1, h2, h3]
    simp only [impute, List.map_cons, List.map_nil]
    rw [if_pos (by simp), hcol]
  refine ⟨?_, hev⟩
  rw [hev]
  intro hcontra
  simp only [List.get?_cons_zero, Option.some.injEq, Prod.mk.injEq] at hcontra
  have := congrArg Col.cells hcontra.2
  simp only at this
  have h0 := congrArg (fun l => l.get? 0) this
  simp only [List.get?_cons_zero, Option.some.injEq, Sum.inl.injEq] at h0
  norm_num at h0

/-- **C2 (amended).** Imputation with `mean`, `median` or `mode`
modifies only missing cells: every non-null cell keeps exactly its
value; for `knn` on a numeric column with missing values, a non-null
numeric cell is instead replaced by its value rounded to 3 decimals
(strings pass through); and re-running mean imputation on its own
result is a no-op. -/
theorem imputation_modifies_only_missing (df : List (String × Col))
    (sel : List String) (m : ImpMethod) :
    (impute df sel m).length = df.length ∧
    (∀ n name c, df.get? n = some (name, c) →
      ∃ c', (impute df sel m).get? n = some (name, c') ∧
        ∀ i x, c.cells.get? i = some (some x) →
          (¬(m = .knn ∧ c.numeric = true ∧ c.cells.any Option.isNone = true ∧
              name ∈ sel) →
            c'.cells.get? i = some (some x)) ∧
          ((m = .knn ∧ c.numeric = true ∧ c.cells.any Option.isNone = true ∧
              name ∈ sel) →
            c'.cells.get? i = some (some (knnRound x)))) ∧
    impute (impute df sel .mean) sel .mean = impute df sel .mean := by
  refine ⟨by rw [impute, List.length_map], ?_, impute_mean_idem df sel⟩
  intro n name c hn
  by_cases hsel : name ∈ sel
  · refine ⟨imputeColumn c m, ?_, ?_⟩
    · rw [impute, List.get?_map, hn]
      simp only [Option.map_some']
      rw [if_pos hsel]
    · intro i x hx
      have hframe := imputeColumn_frame c m i x hx
      constructor
      · intro hnot
        exact hframe.1 (fun ⟨h1, h2, h3⟩ => hnot ⟨h1, h2, h3, hsel⟩)
      · rintro ⟨h1, h2, h3, _⟩
        exact hframe.2 ⟨h1, h2, h3⟩
  · refine ⟨c, ?_, ?_⟩
    · rw [impute, List.get?_map, hn]
      simp only [Option.map_some']
      rw [if_neg hsel]
    · intro i x hx
      exact ⟨fun _ => hx, fun ⟨_, _, _, h4⟩ => absurd h4 hsel⟩

/-- Witness for the amended C2 on the dataframe `[("a", [1, NaN])]` with
mean imputation: the present cell keeps its value and the run is
idempotent. -/
theorem imputation_modifies_only_missing_witness :
    impute (impute [("a", ⟨true, [some (.inl 1), none]⟩)] ["a"] .mean) ["a"] .mean =
      impute [("a", ⟨true, [some (.inl 1), none]⟩)] ["a"] .mean ∧
    (impute [("a", ⟨true, [some (.inl 1), none]⟩)] ["a"] .mean).length = 1 := by
  have h := imputation_modifies_only_missing
    [("a", ⟨true, [some (.inl 1), none]⟩)] ["a"] .mean
  exact ⟨h.2.2, h.1⟩

theorem mem_sortVals {l : List Val} {x : Val} : x ∈ sortVals l ↔ x ∈ l :=
  (List.perm_insertionSort _ l).mem_iff

theorem modeCell_spec (cells : List Cell) (v : Val) (h : modeCell cells = some v) :
    v ∈ cells.filterMap id ∧
    ∀ w ∈ cells.filterMap id,
      (cells.filterMap id).count w ≤ (cells.filterMap id).count v := by
  have hmem : v ∈ (sortVals (cells.filterMap id).dedup).argmax
      fun u => (cells.filterMap id).count u := h
  constructor
  · have := List.argmax_mem hmem
    exact List.mem_dedup.mp (mem_sortVals.mp this)
  · intro w hw
    have hw' : w ∈ sortVals (cells.filterMap id).dedup :=
      mem_sortVals.mpr (List.mem_dedup.mpr hw)
    exact not_lt.mp (List.not_lt_of_mem_argmax hw' hmem)

/-- **C5 (counterexample).** As stated, the claim fails for numeric
columns: on the numeric-dtype column `[1, 1, NaN]` mode imputation
leaves the column unchanged (the source only dispatches `mode` in the
non-numeric branch), so the missing cell is not filled with the most
frequent value `1`. -/
theorem mode_skips_numeric_columns :
    imputeColumn ⟨true, [some (.inl 1), some (.inl 1), none]⟩ .mode =
      ⟨true, [some (.inl 1), some (.inl 1), none]⟩ ∧
    (imputeColumn ⟨true, [some (.inl 1), some (.inl 1), none]⟩ .mode).cells.getD 2 none ≠
      some (.inl 1) := by
  have hc : imputeColumn ⟨true, [some (.inl 1), some (.inl 1), none]⟩ .mode =
      ⟨true, [some (.inl 1), some (.inl 1), none]⟩ := rfl
  refine ⟨hc, ?_⟩
  rw [hc]
  simp

/-- **C5 (amended).** For every column with at least one missing value,
mode imputation leaves numeric-dtype columns unchanged (the source has
no `mode` branch for them); on non-numeric columns it fills every null
with `mode()[0]` — a most frequent non-null value — and leaves the
column as-is when it has no non-null values at all. -/
theorem mode_imputation_amended (c : Col) (hmiss : c.cells.any Option.isNone = true) :
    (c.numeric = true → imputeColumn c .mode = c) ∧
    (c.numeric = false →
      (imputeColumn c .mode).cells = fillCells c.cells (modeCell c.cells) ∧
      (c.cells.filterMap id = [] → imputeColumn c .mode = c) ∧
      (∀ v, modeCell c.cells = some v →
        v ∈ c.cells.filterMap id ∧
        ∀ w ∈ c.cells.filterMap id,
          (c.cells.filterMap id).count w ≤ (c.cells.filterMap id).count v)) := by
  constructor
  · intro hnum
    rw [imputeColumn.eq_def, hmiss, hnum]
    rfl
  · intro hnum
    have hcells : (imputeColumn c .mode).cells = fillCells c.cells (modeCell c.cells) := by
      rw [imputeColumn.eq_def, hmiss, hnum]
      rfl
    refine ⟨hcells, ?_, fun v hv => modeCell_spec c.cells v hv⟩
    intro hempty
    have hmode : modeCell c.cells = none := by
      rw [modeCell, hempty]
      rfl
    have : imputeColumn c .mode = ⟨c.numeric, fillCells c.cells (modeCell c.cells)⟩ := by
      rw [imputeColumn.eq_def, hmiss, hnum]
      rfl
    rw [this, hmode, fillCells_none]

/-- Witness for the amended C5 on the string column
`["x", "x", "y", NaN]`: the nulls are filled with `mode()[0]`. -/
theorem mode_imputation_amended_witness :
    (imputeColumn ⟨false, [some (.inr "x"), some (.inr "x"), some (.inr "y"), none]⟩
        .mode).cells =
      fillCells [some (.inr "x"), some (.inr "x"), some (.inr "y"), none]
        (modeCell [some (.inr "x"), some (.inr "x"), some (.inr "y"), none]) :=
  ((mode_imputation_amended
      ⟨false, [some (.inr "x"), some (.inr "x"), some (.inr "y"), none]⟩
      (by rfl)).2 rfl).1

/-! ## Encoding engine (`apply_encoding`, `app.py` lines 5834-5930)

One-hot (`pd.get_dummies(df[column], prefix=column)`) and ordinal
(`df[column].map(ordinal_map)`) encodings.  Dummy booleans are modelled
as `0 / 1` numeric cells; `get_dummies` orders the dummy columns by
ascending category value and skips `NaN`. -/

/-- The display name of a value, used in `f"{column}_{value}"`. -/
def valName : Val → String
  | .inl q => toString q
  | .inr s => s

/-- The distinct non-null values of a column, ascending (the category
order used by `pd.get_dummies`). -/
def distinctVals (cells : List Cell) : List Val :=
  sortVals (cells.filterMap id).dedup

/-- The 0/1 indicator column of value `v`: `1` where the source cell
equals `v`, `0` elsewhere (including `NaN` cells). -/
def indicator01 (cells : List Cell) (v : Val) : List Cell :=
  cells.map fun c => if c = some v then some (Sum.inl 1) else some (Sum.inl 0)

/-- `pd.get_dummies(df[column], prefix=column)`: one indicator column
named `"<column>_<value>"` per distinct non-null value. -/
def oneHotCols (name : String) (cells : List Cell) : List (String × List Cell) :=
  (distinctVals cells).map fun v => (name ++ "_" ++ valName v, indicator01 cells v)

/-- `df[name]`: the cells of the named column (empty if absent; the UI
only offers existing columns). -/
def getCol (df : List (String × List Cell)) (name : String) : List Cell :=
  ((df.find? fun p => p.1 == name).map Prod.snd).getD []

/-- One-hot encoding of a dataframe:
`encoded_df = pd.concat([df, dummies], axis=1)` — the source column and
all existing columns stay in place, the dummies are appended. -/
def applyOneHot (df : List (String × List Cell)) (name : String) :
    List (String × List Cell) :=
  df ++ oneHotCols name (getCol df name)

/-- Numeric content of an encoded cell at row `i` (0 for `NaN`). -/
def rowVal (col : List Cell) (i : ℕ) : ℚ :=
  match col.getD i none with
  | some (.inl q) => q
  | _ => 0

theorem nodup_distinctVals (cells : List Cell) : (distinctVals cells).Nodup :=
  ((List.perm_insertionSort _ _).nodup_iff).mpr (cells.filterMap id).nodup_dedup

theorem mem_distinctVals {cells : List Cell} {v : Val} :
    v ∈ distinctVals cells ↔ some v ∈ cells := by
  rw [distinctVals, mem_sortVals, List.mem_dedup, List.mem_filterMap]
  constructor
  · rintro ⟨a, ha, rfl⟩
    exact ha
  · intro h
    exact ⟨some v, h, rfl⟩

theorem rowVal_indicator (cells : List Cell) (v : Val) (i : ℕ) (w : Val)
    (h : cells.get? i = some (some w)) :
    rowVal (indicator01 cells v) i = if w = v then 1 else 0 := by
  have hg : (indicator01 cells v).getD i none =
      (if w = v then some (Sum.inl 1) else some (Sum.inl 0)) := by
    rw [List.getD_eq_getD_get?, indicator01, List.get?_map, h]
    by_cases hwv : w = v
    · subst hwv
      simp
    · rw [if_neg hwv, Option.map_some']
      rw [if_neg]
      · rfl
      · simp [hwv]
  rw [rowVal, hg]
  by_cases hwv : w = v
  · rw [if_pos hwv, if_pos hwv]
  · rw [if_neg hwv, if_neg hwv]

theorem sum_indicator_one {l : List Val} {w : Val} (hnd : l.Nodup) (hw : w ∈ l) :
    (l.map fun v => if w = v then (1 : ℚ) else 0).sum = 1 := by
  induction l with
  | nil => cases hw
  | cons a rest ih =>
      rcases List.mem_cons.mp hw with rfl | hmem
      · have hnotin : w ∉ rest := (List.nodup_cons.mp hnd).1
        simp only [List.map_cons, List.sum_cons, if_pos rfl]
        have hz : (rest.map fun v => if w = v then (1 : ℚ) else 0).sum = 0 := by
          apply List.sum_eq_zero
          intro x hx
          rcases List.mem_map.mp hx with ⟨v, hv, rfl⟩
          rw [if_neg]
          intro hcontra
          exact hnotin (hcontra ▸ hv)
        rw [hz]
        simp
      · have hne : w ≠ a := by
          rintro rfl
          exact (List.nodup_cons.mp hnd).1 hmem
        simp only [List.map_cons, List.sum_cons, if_neg hne]
        rw [ih (List.nodup_cons.mp hnd).2 hmem, zero_add]

/-- **C3.** One-hot encoding appends exactly one indicator column per
distinct (non-null) value of the source column, named
`"<column>_<value>"`; the source column and every other existing column
are left in place unmodified; every indicator cell is 0 or 1; and in
every row whose source value is non-null the indicators sum to 1. -/
theorem onehot_encoding_correct (df : List (String × List Cell)) (name : String) :
    applyOneHot df name = df ++ oneHotCols name (getCol df name) ∧
    (applyOneHot df name).take df.length = df ∧
    (oneHotCols name (getCol df name)).length =
      (distinctVals (getCol df name)).length ∧
    (distinctVals (getCol df name)).Nodup ∧
    (∀ v, v ∈ distinctVals (getCol df name) ↔ some v ∈ getCol df name) ∧
    (∀ p ∈ oneHotCols name (getCol df name),
      ∃ v ∈ distinctVals (getCol df name),
        p.1 = name ++ "_" ++ valName v ∧ p.2 = indicator01 (getCol df name) v) ∧
    (∀ p ∈ oneHotCols name (getCol df name), ∀ c ∈ p.2,
      c = some (Sum.inl 0) ∨ c = some (Sum.inl 1)) ∧
    (∀ i w, (getCol df name).get? i = some (some w) →
      ((oneHotCols name (getCol df name)).map fun p => rowVal p.2 i).sum = 1) := by
  refine ⟨rfl, ?_, by rw [oneHotCols, List.length_map], nodup_distinctVals _,
    fun v => mem_distinctVals, ?_, ?_, ?_⟩
  · rw [applyOneHot, List.take_left]
  · intro p hp
    rcases List.mem_map.mp hp with ⟨v, hv, rfl⟩
    exact ⟨v, hv, rfl, rfl⟩
  · intro p hp c hc
    rcases List.mem_map.mp hp with ⟨v, _, rfl⟩
    rcases List.mem_map.mp hc with ⟨cell, _, rfl⟩
    by_cases hcv : cell = some v
    · right; rw [if_pos hcv]
    · left; rw [if_neg hcv]
  · intro i w hw
    rw [oneHotCols, List.map_map]
    have hcong : (distinctVals (getCol df name)).map
        ((fun p : String × List Cell => rowVal p.2 i) ∘
          fun v => (name ++ "_" ++ valName v, indicator01 (getCol df name) v)) =
        (distinctVals (getCol df name)).map fun v => if w = v then (1 : ℚ) else 0 := by
      apply List.map_congr_left
      intro v _
      exact rowVal_indicator _ v i w hw
    rw [hcong]
    apply sum_indicator_one (nodup_distinctVals _)
    apply mem_distinctVals.mpr
    have hi : i < (getCol df name).length := by
      by_contra hlt
      rw [List.get?_eq_none.mpr (by omega)] at hw
      exact Option.noConfusion hw
    rw [List.get?_eq_getElem? , List.getElem?_eq_getElem hi] at hw
    have := Option.some.inj hw
    rw [← this]
    exact List.getElem_mem hi

/-- Witness for C3 on the single-column frame
`[("col", ["a", "b", NaN, "a"])]`: the indicators in row 0 sum to 1. -/
theorem onehot_encoding_correct_witness :
    ((oneHotCols "col"
        (getCol [("col", [some (.inr "a"), some (.inr "b"), none, some (.inr "a")])]
          "col")).map fun p =>
      rowVal p.2 0).sum = 1 :=
  (onehot_encoding_correct
      [("col", [some (.inr "a"), some (.inr "b"), none, some (.inr "a")])]
      "col").2.2.2.2.2.2.2 0 (.inr "a") rfl

/-- Index of the first occurrence of `v` in the user-supplied order
(`ordinal_map = {val: i for i, val in enumerate(ordinal_values)}`). -/
def idxIn : List Val → Val → Option ℕ
  | [], _ => none
  | a :: rest, v => if a = v then some 0 else (idxIn rest v).map (· + 1)

/-- Ordinal encoding of a column (`app.py` lines 5903-5913):
`encoded_df[f"{column}_ordinal"] = df[column].map(ordinal_map)` where
`ordinal_map` enumerates the caller-supplied order, falling back to the
ascending sort of the distinct values when no order is supplied.
`Series.map` leaves any value absent from the mapping as `NaN`
(`none`) — there is no validation or completion of a partial order. -/
def applyOrdinal (cells : List Cell) (order : List Val) : List Cell :=
  cells.map fun c =>
    match c with
    | none => none
    | some v =>
        match (if order = [] then idxIn (sortVals (cells.filterMap id).dedup) v
               else idxIn order v) with
        | none => none
        | some n => some (.inl (n : ℚ))

/-- The ordinal branch of the encoding engine at dataframe level:
appends `"<column>_ordinal"`. -/
def applyOrdinalDf (df : List (String × List Cell)) (name : String)
    (order : List Val) : List (String × List Cell) :=
  df ++ [(name ++ "_ordinal", applyOrdinal (getCol df name) order)]

/-- **C6.** On the column `["a", "b"]` with the partial caller order
`["a"]`, the engine neither rejects nor completes the order: it silently
emits the encoded column `[0, NaN]`, leaving the omitted value `"b"`
unmapped — contradicting the documented requirement (and the UI's own
"if you remove a value, it will be restored" note). -/
theorem ordinal_partial_order_left_unmapped :
    applyOrdinalDf [("c", [some (.inr "a"), some (.inr "b")])] "c" [.inr "a"] =
      [("c", [some (.inr "a"), some (.inr "b")]),
       ("c_ordinal", [some (.inl 0), none])] ∧
    (applyOrdinal [some (.inr "a"), some (.inr "b")] [.inr "a"]).getD 1 none =
      none := by
  have hcol : applyOrdinal [some (.inr "a"), some (.inr "b")] [.inr "a"] =
      [some (.inl 0), none] := by
    have h0 : idxIn [Sum.inr "a"] (.inr "a") = some 0 := by
      rw [idxIn, if_pos rfl]
    have h1 : idxIn [Sum.inr "a"] (.inr "b") = none := by
      rw [idxIn, if_neg (by simp)]
      rfl
    simp only [applyOrdinal, List.map_cons, List.map_nil,
      if_neg (List.cons_ne_nil _ _), h0, h1]
    norm_num
  constructor
  · rw [applyOrdinalDf]
    have : getCol [("c", [some (.inr "a"), some (.inr "b")])] "c" =
        [some (.inr "a"), some (.inr "b")] := rfl
    rw [this, hcol]
    rfl
  · rw [hcol]
    rfl

/-! ## Statistical-test engine (`perform_test`, `app.py` lines 4342-4600)

Pearson/Spearman validation ladder.  The value domain of a test column
includes the float infinities, which the source explicitly replaces by
`NaN` before dropping (`df.replace([np.inf, -np.inf], np.nan).dropna()`).
The whole callback body runs inside `try/except`, so every failure is
returned as a message string, never raised; the embedding is a total
function into `CorrOutcome`. -/

/-- A float value in a test column: finite, `+inf`, or `-inf`. -/
inductive TVal where
  | fin (q : ℚ)
  | pinf
  | ninf
  deriving DecidableEq

/-- A test-column cell; `none` is `NaN`. -/
abbrev TCell := Option TVal

/-- A test column with its pandas numeric-dtype flag. -/
structure TCol where
  numeric : Bool
  cells : List TCell

/-- The two correlation tests of the ladder under scrutiny. -/
inductive CorrTest where
  | pearson
  | spearman
  deriving DecidableEq

/-- Display name used in the error messages. -/
def corrName : CorrTest → String
  | .pearson => "Pearson Correlation"
  | .spearman => "Spearman Correlation"

/-- Lower-case test name used in the sample-size error message. -/
def corrShort : CorrTest → String
  | .pearson => "Pearson correlation"
  | .spearman => "Spearman correlation"

/-- A paired row survives exactly when both entries are finite
(neither `NaN` nor `±inf`). -/
def finPair : TCell → TCell → Option (ℚ × ℚ)
  | some (.fin x), some (.fin y) => some (x, y)
  | _, _ => none

/-- `df[[x, y]].replace([np.inf, -np.inf], np.nan).dropna()`: the valid
paired points, in row order. -/
def validPairs (xs ys : List TCell) : List (ℚ × ℚ) :=
  (xs.zip ys).filterMap fun p => finPair p.1 p.2

/-- Outcome of a correlation test: a structured error message or the
valid pairs handed to `scipy.stats.pearsonr` / `spearmanr`. -/
inductive CorrOutcome where
  | err (msg : String)
  | ok (pairs : List (ℚ × ℚ))
  deriving DecidableEq

/-- The Pearson/Spearman validation ladder of `perform_test` (`app.py`
lines 4386-4397 and 4486-4496): missing Y-axis, then the numeric-dtype
check on both columns, then the ≥ 2 valid-pairs check; only then is the
correlation computed (over `validPairs`). -/
def runCorr (t : CorrTest) (x : TCol) (y? : Option TCol) : CorrOutcome :=
  match y? with
  | none => .err ("Please select Y-axis for " ++ corrName t ++ ".")
  | some y =>
      if ¬(x.numeric = true ∧ y.numeric = true) then
        .err ("Both X-axis and Y-axis must be numeric for " ++ corrName t ++ ".")
      else if (validPairs x.cells y.cells).length < 2 then
        .err ("Not enough valid data points for " ++ corrShort t ++ ".")
      else .ok (validPairs x.cells y.cells)

/-- **C7.** For every correlation test and pair of columns: a missing
second variable, a non-numeric variable, or fewer than 2 valid paired
points each yield a structured error message; a successful run returns
exactly the rows where both values are finite (nulls and infinities
dropped, order preserved), with at least 2 of them; and the engine is a
total function, mirroring the `try/except` wrapper that prevents any
exception from escaping the callback. -/
theorem correlation_test_validation (t : CorrTest) (x : TCol) (y? : Option TCol) :
    (y? = none → runCorr t x y? = .err ("Please select Y-axis for " ++ corrName t ++ ".")) ∧
    (∀ y, y? = some y → ¬(x.numeric = true ∧ y.numeric = true) →
      runCorr t x y? = .err ("Both X-axis and Y-axis must be numeric for " ++
        corrName t ++ ".")) ∧
    (∀ y, y? = some y → x.numeric = true → y.numeric = true →
      (validPairs x.cells y.cells).length < 2 →
      runCorr t x y? = .err ("Not enough valid data points for " ++ corrShort t ++ ".")) ∧
    (∀ ps, runCorr t x y? = .ok ps →
      ∃ y, y? = some y ∧ x.numeric = true ∧ y.numeric = true ∧
        ps = validPairs x.cells y.cells ∧ 2 ≤ ps.length ∧
        ∀ p ∈ ps, ∃ i, x.cells.get? i = some (some (.fin p.1)) ∧
          y.cells.get? i = some (some (.fin p.2))) := by
  refine ⟨?_, ?_, ?_, ?_⟩
  · rintro rfl
    rfl
  · rintro y rfl hnn
    rw [runCorr, if_pos hnn]
  · rintro y rfl hx hy hlen
    rw [runCorr, if_neg (by simp [hx, hy]), if_pos hlen]
  · intro ps hps
    rcases y? with _ | y
    · exact absurd hps (by rw [runCorr]; intro h; cases h)
    · refine ⟨y, rfl, ?_⟩
      rw [runCorr] at hps
      by_cases hnn : x.numeric = true ∧ y.numeric = true
      · rw [if_neg (not_not_intro hnn)] at hps
        by_cases hlen : (validPairs x.cells y.cells).length < 2
        · rw [if_pos hlen] at hps
          cases hps
        · rw [if_neg hlen] at hps
          have hpairs : ps = validPairs x.cells y.cells :=
            (CorrOutcome.ok.inj hps).symm
          refine ⟨hnn.1, hnn.2, hpairs, ?_, ?_⟩
          · rw [hpairs]; omega
          · intro p hp
            rw [hpairs, validPairs] at hp
            rcases List.mem_filterMap.mp hp with ⟨pr, hpr, hfp⟩
            rcases List.mem_iff_get?.mp hpr with ⟨i, hi⟩
            rcases (List.get?_zip_eq_some _ _ _ _).mp hi with ⟨hx1, hy1⟩
            refine ⟨i, ?_, ?_⟩
            · rcases pr with ⟨c1, c2⟩
              match c1, c2, hfp with
              | some (.fin a), some (.fin b), hfp =>
                  have := Option.some.inj hfp
                  rw [hx1, ← this]
            · rcases pr with ⟨c1, c2⟩
              match c1, c2, hfp with
              | some (.fin a), some (.fin b), hfp =>
                  have := Option.some.inj hfp
                  rw [hy1, ← this]
      · rw [if_pos hnn] at hps
        cases hps

/-- Witness for C7: with no Y-axis selected the engine returns the
structured prompt. -/
theorem correlation_test_validation_witness :
    runCorr .pearson ⟨true, [some (.fin 1)]⟩ none =
      .err ("Please select Y-axis for " ++ corrName .pearson ++ ".") :=
  (correlation_test_validation .pearson ⟨true, [some (.fin 1)]⟩ none).1 rfl

/-! ## Prediction engine: training validation (`train_model`, `app.py`
lines 5314-5456)

`df = df.dropna(subset=[target] + features)`; fewer than 10 surviving
rows aborts with a structured message.  The body runs inside
`try/except`, so every other failure also returns as a message — the
embedding is total.  The success branch hands the surviving rows to the
sklearn random forest, which is external numerical code; the embedding
returns those rows as the success payload. -/

/-- A dataframe row: named cells. -/
abbrev Row := List (String × Cell)

/-- The value of a named cell in a row (`none` when absent or `NaN`). -/
def getVal (r : Row) (name : String) : Cell :=
  ((r.find? fun p => p.1 == name).map Prod.snd).getD none

/-- A row survives `dropna(subset=[target] + features)` iff the target
and every feature entry is non-null. -/
def rowComplete (r : Row) (target : String) (features : List String) : Bool :=
  (target :: features).all fun c => (getVal r c).isSome

/-- Outcome of `train_model`: a structured validation error or the
validated rows passed on to the forest. -/
inductive TrainOutcome where
  | err (msg : String)
  | ok (rows : List Row)
  deriving DecidableEq

/-- The null-dropping and row-count validation of `train_model`. -/
def trainModel (df : List Row) (target : String) (features : List String) :
    TrainOutcome :=
  let kept := df.filter fun r => rowComplete r target features
  if kept.length < 10 then
    .err "Not enough data after removing missing values. Need at least 10 rows."
  else .ok kept

/-- **C8.** Training first drops the rows with a null in the target or
any feature column (keeping exactly the complete rows, in order), and
when fewer than 10 rows survive it returns the structured
input-validation error — a value, not an exception. -/
theorem train_model_min_rows (df : List Row) (target : String)
    (features : List String) :
    ((df.filter fun r => rowComplete r target features).length < 10 →
      trainModel df target features =
        .err "Not enough data after removing missing values. Need at least 10 rows.") ∧
    (10 ≤ (df.filter fun r => rowComplete r target features).length →
      trainModel df target features =
        .ok (df.filter fun r => rowComplete r target features)) ∧
    (∀ r, r ∈ df.filter (fun r => rowComplete r target features) ↔
      r ∈ df ∧ ∀ c ∈ target :: features, (getVal r c).isSome = true) := by
  refine ⟨?_, ?_, ?_⟩
  · intro h
    rw [trainModel]
    simp only [if_pos h]
  · intro h
    rw [trainModel]
    simp only [if_neg (by omega : ¬(df.filter fun r =>
      rowComplete r target features).length < 10)]
  · intro r
    rw [List.mem_filter, rowComplete, List.all_eq_true]

/-- Witness for C8: the empty dataframe keeps 0 rows, so training
errors out with the minimum-row message. -/
theorem train_model_min_rows_witness :
    trainModel [] "y" ["x"] =
      .err "Not enough data after removing missing values. Need at least 10 rows." :=
  (train_model_min_rows [] "y" ["x"]).1 (by simp)

/-! ## Prediction engine: manual-input prediction (`make_predictions`,
`app.py` lines 5511-5700)

For manual input the source has no stored model object; for a
label-encoded (categorical) target it sets `class_idx = 0` and returns
`inverse_mapping[0]` regardless of the inputs; for a numeric target it
returns the importance-weighted sum of the processed features. -/

/-- Stored per-feature preprocessing metadata (`feature-info-store`). -/
structure FeatInfo where
  numeric : Bool
  mean : ℚ
  std : ℚ
  categories : List Val

/-- Stored model metadata (`trained-model-store`): the label-encoded
target's inverse mapping lists the class for each code `0..n-1`, in
first-appearance order of `y.unique()`. -/
structure ModelInfo where
  target : String
  features : List String
  targetCategorical : Bool
  inverseMapping : List Val
  importances : List (String × ℚ)

/-- Preprocessing of one manual-input row (`X_processed`): numeric
features are standardised with the stored mean/std, categorical features
are one-hot expanded against the stored category list; a feature missing
from the input aborts with `"Missing feature: <f>"`; a non-numeric value
in a numeric feature makes `astype(float)` raise (caught by the
`except`). -/
def buildProcessed (features : List String) (fi : List (String × FeatInfo))
    (input : List (String × Val)) : Except String (List (String × ℚ)) :=
  features.foldlM (fun acc f =>
    match (input.find? fun p => p.1 == f).map Prod.snd with
    | none => .error ("Missing feature: " ++ f)
    | some v =>
        match ((fi.find? fun p => p.1 == f).map Prod.snd) with
        | none => .error "Error making prediction"
        | some info =>
            if info.numeric then
              match v with
              | .inl q => .ok (acc ++ [(f, (q - info.mean) / info.std)])
              | .inr _ => .error "Error making prediction"
            else
              .ok (acc ++ info.categories.map fun cat =>
                (f ++ "_" ++ valName cat, if v = cat then (1 : ℚ) else 0)))
    []

/-- Result of a manual prediction: an error message, a predicted class,
or a predicted number. -/
inductive PredOutcome where
  | err (msg : String)
  | okClass (v : Val)
  | okNum (q : ℚ)
  deriving DecidableEq

/-- The manual-input prediction path (`app.py` lines 5636-5700): builds
`X_processed`, then for a categorical target returns
`inverse_mapping[class_idx]` with `class_idx = 0`; for a numeric target
returns `sum(X_processed[f] * importance)` over stored importances. -/
def makePredictionManual (mi : ModelInfo) (fi : List (String × FeatInfo))
    (input : List (String × Val)) : PredOutcome :=
  match buildProcessed mi.features fi input with
  | .error msg => .err msg
  | .ok xp =>
      if mi.targetCategorical then
        .okClass (mi.inverseMapping.getD 0 (.inr ""))
      else
        .okNum ((mi.importances.filterMap fun p =>
          ((xp.find? fun q => q.1 == p.1).map Prod.snd).map (· * p.2)).sum)

/-- **C10.** For a model whose target was label-encoded (categorical),
the manual-input prediction path returns the class with code 0 — the
first class of the stored inverse mapping — for every input row whose
preprocessing succeeds: the answer is independent of the supplied
feature values. -/
theorem manual_prediction_ignores_inputs (mi : ModelInfo)
    (fi : List (String × FeatInfo)) (input input' : List (String × Val))
    (hcat : mi.targetCategorical = true)
    (h : ∃ xp, buildProcessed mi.features fi input = .ok xp)
    (h' : ∃ xp, buildProcessed mi.features fi input' = .ok xp) :
    makePredictionManual mi fi input = .okClass (mi.inverseMapping.getD 0 (.inr "")) ∧
    makePredictionManual mi fi input = makePredictionManual mi fi input' := by
  rcases h with ⟨xp, hxp⟩
  rcases h' with ⟨xp', hxp'⟩
  have h1 : makePredictionManual mi fi input =
      .okClass (mi.inverseMapping.getD 0 (.inr "")) := by
    rw [makePredictionManual, hxp]
    simp only [hcat, if_true]
  have h2 : makePredictionManual mi fi input' =
      .okClass (mi.inverseMapping.getD 0 (.inr "")) := by
    rw [makePredictionManual, hxp']
    simp only [hcat, if_true]
  exact ⟨h1, h1.trans h2.symm⟩

/-- Witness for C10: a one-feature categorical model predicts the class
with code 0 for two different manual inputs. -/
theorem manual_prediction_ignores_inputs_witness :
    makePredictionManual
        ⟨"t", ["f"], true, [.inr "yes", .inr "no"], [("f", 1)]⟩
        [("f", ⟨true, 0, 1, []⟩)] [("f", .inl 5)] =
      .okClass (.inr "yes") ∧
    makePredictionManual
        ⟨"t", ["f"], true, [.inr "yes", .inr "no"], [("f", 1)]⟩
        [("f", ⟨true, 0, 1, []⟩)] [("f", .inl 5)] =
      makePredictionManual
        ⟨"t", ["f"], true, [.inr "yes", .inr "no"], [("f", 1)]⟩
        [("f", ⟨true, 0, 1, []⟩)] [("f", .inl 1000)] :=
  manual_prediction_ignores_inputs
    ⟨"t", ["f"], true, [.inr "yes", .inr "no"], [("f", 1)]⟩
    [("f", ⟨true, 0, 1, []⟩)] [("f", .inl 5)] [("f", .inl 1000)]
    rfl ⟨[("f", (5 - 0) / 1)], rfl⟩ ⟨[("f", (1000 - 0) / 1)], rfl⟩

/-! ## Type inference (`is_possible_datetime`, `is_possible_numeric`,
`is_possible_boolean`, `detect_data_type`, `app.py` lines 1030-1120)

The source classifies a string/object column by drawing a **random**
sample (`Series.sample`, no fixed seed) of up to 100 non-null values for
each check.  The embedding makes that hidden input explicit: each check
takes the list of sampled positions (into the non-null values) as a
parameter, and `ValidSample` states what `Series.sample` guarantees —
distinct in-range indices of the prescribed size.  Sample sizes follow
the source: `min(100, len(non_null))` for the datetime check but
`min(100, len(series))` for the numeric and boolean checks.

The library parsers are modelled by concrete recognizers
(`canParseDatetime`, `isNumLit`, boolean token matching) that agree with
`pd.to_datetime` / `pd.to_numeric` on the value domain used here:
decimal literals numeric-parse and alphabetic words parse as nothing.
The embedding is specialized to string-dtype columns — natively typed
columns return their dtype immediately and are trivially
sample-independent. -/

/-- Simplified model of `pd.to_datetime` (generic parse plus the fixed
format list): a date-like string needs a `-` or `/` separator and only
digits, separators, colons and spaces. -/
def canParseDatetime (s : String) : Bool :=
  (s.data.any fun c => c = '-' || c = '/') &&
  (s.data.all fun c => c.isDigit || c = '-' || c = '/' || c = ':' || c = ' ')

/-- Split a character list at the first `'.'`. -/
def splitDot : List Char → List Char × Option (List Char)
  | [] => ([], none)
  | c :: rest =>
      if c = '.' then ([], some rest)
      else
        let p := splitDot rest
        (c :: p.1, p.2)

/-- Simplified model of `pd.to_numeric` on a string: an optionally
signed decimal literal. -/
def isNumLit (s : String) : Bool :=
  isNumLitChars (match s.data with
    | c :: rest => if c = '-' || c = '+' then rest else s.data
    | [] => [])
where
  isNumLitChars (cs : List Char) : Bool :=
    match splitDot cs with
    | (ip, none) => !ip.isEmpty && ip.all Char.isDigit
    | (ip, some fp) =>
        (!ip.isEmpty || !fp.isEmpty) && ip.all Char.isDigit && fp.all Char.isDigit

/-- `str.strip()` on a character list (space trimming). -/
def trimChars (cs : List Char) : List Char :=
  ((cs.dropWhile fun c => c = ' ').reverse.dropWhile fun c => c = ' ').reverse

/-- The fixed boolean token sets of `is_possible_boolean`
(`true_values + false_values`). -/
def boolTokens : List (List Char) :=
  ["true".data, "t".data, "yes".data, "y".data, "1".data,
   "false".data, "f".data, "no".data, "n".data, "0".data]

/-- `x.lower().strip() ∈ true_values + false_values`. -/
def isBoolToken (s : String) : Bool :=
  decide (trimChars (s.data.map Char.toLower) ∈ boolTokens)

/-- The non-null values of a string column. -/
def tiNonNull (cells : List (Option String)) : List String := cells.filterMap id

/-- The values drawn by `Series.sample` at the given positions. -/
def sampleAt (vals : List String) (idx : List ℕ) : List String :=
  idx.map fun i => vals.getD i ""

/-- What `Series.sample(size)` (without replacement) guarantees about
the drawn positions. -/
abbrev ValidSample (vals : List String) (size : ℕ) (idx : List ℕ) : Prop :=
  idx.length = size ∧ idx.Nodup ∧ ∀ i ∈ idx, i < vals.length

/-- `is_possible_datetime` on a string column, with the drawn sample
explicit (sample size `min(100, len(non_null))`). -/
def isPossibleDatetime (cells : List (Option String)) (idx : List ℕ) : Bool :=
  if (tiNonNull cells).length = 0 then false
  else (sampleAt (tiNonNull cells) idx).all canParseDatetime

/-- `is_possible_numeric` on a string column (sample size
`min(100, len(series))`, taken over the non-null values). -/
def isPossibleNumeric (cells : List (Option String)) (idx : List ℕ) : Bool :=
  if (sampleAt (tiNonNull cells) idx).length = 0 then false
  else (sampleAt (tiNonNull cells) idx).all isNumLit

/-- `is_possible_boolean` on a string column (sample size
`min(100, len(series))`). -/
def isPossibleBoolean (cells : List (Option String)) (idx : List ℕ) : Bool :=
  if (sampleAt (tiNonNull cells) idx).length = 0 then false
  else (sampleAt (tiNonNull cells) idx).all isBoolToken

/-- `detect_data_type` on a string-dtype column: the datetime, numeric
and boolean probes each draw their own sample; the fallback
distinguishes `categorical` from `text` by
`nunique < min(50, len(series) * 0.5)`. -/
def detectDataType (cells : List (Option String))
    (idxDT idxNum idxBool : List ℕ) : String :=
  if isPossibleDatetime cells idxDT then "datetime"
  else if isPossibleNumeric cells idxNum then "numeric"
  else if isPossibleBoolean cells idxBool then "boolean"
  else if ((tiNonNull cells).dedup.length : ℚ) < min 50 ((cells.length : ℚ) / 2) then
    "categorical"
  else "text"

/-- The column refuting sample-independence: 100 copies of `"1.5"`
followed by one `"abc"` (101 non-null values, so the checks sample only
100 of them). -/
def mixedCol : List (Option String) :=
  List.replicate 100 (some "1.5") ++ [some "abc"]

/-- A draw that misses `"abc"`: positions `0..99`. -/
def drawA : List ℕ := List.range 100

/-- A draw that includes `"abc"`: positions `1..100`. -/
def drawB : List ℕ := List.range' 1 100

set_option maxRecDepth 8192 in
/-- **C9 (counterexample).** Type detection is *not* a deterministic
function of the column's values: on `mixedCol` both `drawA` and `drawB`
are valid `Series.sample` draws of the prescribed size
(`min(100, 101) = 100`), yet one run classifies the column as
`"numeric"` and the other as `"categorical"`. -/
theorem detect_type_depends_on_sample :
    ValidSample (tiNonNull mixedCol) (min 100 (tiNonNull mixedCol).length) drawA ∧
    ValidSample (tiNonNull mixedCol) (min 100 mixedCol.length) drawA ∧
    ValidSample (tiNonNull mixedCol) (min 100 (tiNonNull mixedCol).length) drawB ∧
    ValidSample (tiNonNull mixedCol) (min 100 mixedCol.length) drawB ∧
    detectDataType mixedCol drawA drawA drawA = "numeric" ∧
    detectDataType mixedCol drawB drawB drawB = "categorical" ∧
    detectDataType mixedCol drawA drawA drawA ≠
      detectDataType mixedCol drawB drawB drawB := by
  have hdtA : isPossibleDatetime mixedCol drawA = false := by decide
  have hnumA : isPossibleNumeric mixedCol drawA = true := by decide
  have hdtB : isPossibleDatetime mixedCol drawB = false := by decide
  have hnumB : isPossibleNumeric mixedCol drawB = false := by decide
  have hboolB : isPossibleBoolean mixedCol drawB = false := by decide
  have hdedup : (tiNonNull mixedCol).dedup.length = 2 := by decide
  have hlen : mixedCol.length = 101 := by decide
  have hfall : ((tiNonNull mixedCol).dedup.length : ℚ) <
      min 50 ((mixedCol.length : ℚ) / 2) := by
    rw [hdedup, hlen]
    rw [min_def]
    norm_num
  have hA : detectDataType mixedCol drawA drawA drawA = "numeric" := by
    rw [detectDataType, hdtA, hnumA]
    rfl
  have hB : detectDataType mixedCol drawB drawB drawB = "categorical" := by
    rw [detectDataType, hdtB, hnumB, hboolB]
    simp only [Bool.false_eq_true, if_false, if_pos hfall]
  refine ⟨by decide, by decide, by decide, by decide, hA, hB, ?_⟩
  rw [hA, hB]
  decide

theorem tiNonNull_length_complete {cells : List (Option String)}
    (h : ∀ c ∈ cells, c.isSome = true) :
    (tiNonNull cells).length = cells.length := by
  induction cells with
  | nil => rfl
  | cons c t ih =>
      cases c with
      | none => exact absurd (h none (List.mem_cons_self _ _)) (by simp)
      | some a =>
          have ht : ∀ x ∈ t, x.isSome = true := fun x hx =>
            h x (List.mem_cons_of_mem _ hx)
          have hstep : tiNonNull (some a :: t) = a :: tiNonNull t := rfl
          rw [hstep, List.length_cons, List.length_cons, ih ht]

theorem map_getD_range (l : List String) :
    (List.range l.length).map (fun i => l.getD i "") = l := by
  induction l with
  | nil => rfl
  | cons a t ih =>
      rw [List.length_cons, List.range_succ_eq_map, List.map_cons, List.map_map]
      have hcomp : ((fun i => (a :: t).getD i "") ∘ Nat.succ) =
          fun i => t.getD i "" := funext fun i => rfl
      rw [hcomp, ih]
      rfl

theorem sampleAt_perm {vals : List String} {idx : List ℕ}
    (h : ValidSample vals vals.length idx) : (sampleAt vals idx).Perm vals := by
  have hsub : idx ⊆ List.range vals.length := fun i hi =>
    List.mem_range.mpr (h.2.2 i hi)
  have hsp : idx.Subperm (List.range vals.length) :=
    List.subperm_of_subset h.2.1 hsub
  have hperm : idx.Perm (List.range vals.length) :=
    hsp.perm_of_length_le (by simp [List.length_range, h.1])
  have hstep : (idx.map fun i => vals.getD i "").Perm
      ((List.range vals.length).map fun i => vals.getD i "") := hperm.map _
  rw [map_getD_range] at hstep
  exact hstep

theorem all_perm_eq {α : Type} {l l' : List α} (h : l.Perm l') (p : α → Bool) :
    l.all p = l'.all p := by
  have hiff : l.all p = true ↔ l'.all p = true := by
    rw [List.all_eq_true, List.all_eq_true]
    exact ⟨fun H a ha => H a (h.mem_iff.mpr ha),
           fun H a ha => H a (h.mem_iff.mp ha)⟩
  cases h1 : l.all p with
  | true => exact (hiff.mp h1).symm
  | false =>
      cases h2 : l'.all p with
      | true => exact absurd (hiff.mpr h2) (by rw [h1]; simp)
      | false => rfl

theorem probeDatetime_canonical {cells : List (Option String)} {idx : List ℕ}
    (h : ValidSample (tiNonNull cells) (tiNonNull cells).length idx) :
    isPossibleDatetime cells idx =
      if (tiNonNull cells).length = 0 then false
      else (tiNonNull cells).all canParseDatetime := by
  by_cases h0 : (tiNonNull cells).length = 0
  · rw [isPossibleDatetime, if_pos h0, if_pos h0]
  · rw [isPossibleDatetime, if_neg h0, if_neg h0]
    exact all_perm_eq (sampleAt_perm h) _

theorem probeSized_canonical {cells : List (Option String)} {idx : List ℕ}
    (p : String → Bool)
    (h : ValidSample (tiNonNull cells) (tiNonNull cells).length idx) :
    (if (sampleAt (tiNonNull cells) idx).length = 0 then false
     else (sampleAt (tiNonNull cells) idx).all p) =
      if (tiNonNull cells).length = 0 then false
      else (tiNonNull cells).all p := by
  have hlen : (sampleAt (tiNonNull cells) idx).length = (tiNonNull cells).length := by
    rw [sampleAt, List.length_map, h.1]
  simp only [hlen]
  by_cases h0 : (tiNonNull cells).length = 0
  · rw [if_pos h0, if_pos h0]
  · rw [if_neg h0, if_neg h0]
    exact all_perm_eq (sampleAt_perm h) _

/-- **C9 (amended).** All modelled engine operations are pure functions
of their inputs; type detection is additionally independent of the
hidden random sample whenever the column is fully non-null with at most
100 values (the sample is then a permutation of the whole column), while
for longer columns the counterexample shows the detected type can depend
on the draw. -/
theorem detect_type_deterministic_small (cells : List (Option String))
    (hlen : cells.length ≤ 100) (hnn : ∀ c ∈ cells, c.isSome = true)
    (d1 n1 b1 d2 n2 b2 : List ℕ)
    (hd1 : ValidSample (tiNonNull cells) (min 100 (tiNonNull cells).length) d1)
    (hn1 : ValidSample (tiNonNull cells) (min 100 cells.length) n1)
    (hb1 : ValidSample (tiNonNull cells) (min 100 cells.length) b1)
    (hd2 : ValidSample (tiNonNull cells) (min 100 (tiNonNull cells).length) d2)
    (hn2 : ValidSample (tiNonNull cells) (min 100 cells.length) n2)
    (hb2 : ValidSample (tiNonNull cells) (min 100 cells.length) b2) :
    detectDataType cells d1 n1 b1 = detectDataType cells d2 n2 b2 := by
  have hfull : (tiNonNull cells).length = cells.length := tiNonNull_length_complete hnn
  have hmin1 : min 100 (tiNonNull cells).length = (tiNonNull cells).length :=
    min_eq_right (by omega)
  have hmin2 : min 100 cells.length = (tiNonNull cells).length := by
    rw [hfull]; exact min_eq_right hlen
  have full : ∀ {idx : List ℕ} {s : ℕ}, s = (tiNonNull cells).length →
      ValidSample (tiNonNull cells) s idx →
      ValidSample (tiNonNull cells) (tiNonNull cells).length idx := by
    rintro idx s rfl h
    exact h
  have e1 : isPossibleDatetime cells d1 = isPossibleDatetime cells d2 := by
    rw [probeDatetime_canonical (full hmin1 hd1),
        probeDatetime_canonical (full hmin1 hd2)]
  have e2 : isPossibleNumeric cells n1 = isPossibleNumeric cells n2 := by
    rw [isPossibleNumeric, isPossibleNumeric,
        probeSized_canonical isNumLit (full hmin2 hn1),
        probeSized_canonical isNumLit (full hmin2 hn2)]
  have e3 : isPossibleBoolean cells b1 = isPossibleBoolean cells b2 := by
    rw [isPossibleBoolean, isPossibleBoolean,
        probeSized_canonical isBoolToken (full hmin2 hb1),
        probeSized_canonical isBoolToken (full hmin2 hb2)]
  rw [detectDataType, detectDataType, e1, e2, e3]

/-- Witness for the amended C9: on the 2-value column `["x", "y"]` the
draws `[0, 1]` and `[1, 0]` are both valid and produce the same detected
type. -/
theorem detect_type_deterministic_small_witness :
    detectDataType [some "x", some "y"] [0, 1] [0, 1] [0, 1] =
      detectDataType [some "x", some "y"] [1, 0] [1, 0] [1, 0] :=
  detect_type_deterministic_small [some "x", some "y"] (by decide)
    (by decide) [0, 1] [0, 1] [0, 1] [1, 0] [1, 0] [1, 0]
    (by decide) (by decide) (by decide) (by decide) (by decide) (by decide)

end Dashboard
